import Mathlib

/-!
Shallow embedding of the swap-sphere matching engine
(`apps/matching-engine`): the skill-similarity cascade
(`semantic.service.ts`), the geo scorer (`location.service.ts`) and the
orchestrating `MatchingEngine` (`matching.engine.ts`,
`src/unnamed/part_009`).  JS numbers are modelled as rationals; the
external embedding model (`@xenova/transformers` pipeline) is modelled as
an abstract oracle `EmbedOracle`: `none` is the reachable
"initialization failed / pipeline unavailable" state in which the code
uses `fallbackSimilarity`, `some f` stands for a working cosine-of-
embeddings function (whose raw output the code clamps to [0,1]).
Logging, timestamps (`Date`) and result `explanation` strings are
dropped; everything else follows the TypeScript control flow.
-/

unseal Rat.add Rat.mul Rat.inv Rat.sub Rat.ofScientific

namespace SwapSphere

/-- Clamp to [0,1]: `Math.max(0, Math.min(1, x))` used throughout the engine. -/
def clamp01 (x : ℚ) : ℚ := max 0 (min 1 x)

/-- JS `String.prototype.trim`: drop leading and trailing whitespace
(modelled on the character list; ASCII whitespace). -/
def jsTrim (s : String) : String :=
  ⟨(((s.data.dropWhile Char.isWhitespace).reverse.dropWhile Char.isWhitespace).reverse)⟩

/-- JS `String.prototype.toLowerCase` (ASCII model). -/
def jsToLower (s : String) : String := ⟨s.data.map Char.toLower⟩

/-- JS `String.prototype.length` (character count model). -/
def jsLength (s : String) : Nat := s.data.length

/-- JS `a.includes(b)`: `b` occurs as a contiguous substring of `a`. -/
def strIncludes (a b : String) : Bool := decide (b.data <:+: a.data)

/-- Split a character list at every separator character. -/
def splitChars (p : Char → Bool) : List Char → List (List Char)
  | [] => [[]]
  | c :: cs =>
    if p c then [] :: splitChars p cs
    else
      match splitChars p cs with
      | [] => [[c]]
      | w :: ws => (c :: w) :: ws

/-- Word split `name.split(/[\s\-_\/]+/).filter(w => w.length > 0)` from
`fallbackSimilarity`: with empty fragments filtered out, splitting at
every separator character agrees with the `+`-greedy regex split. -/
def splitWords (s : String) : List String :=
  ((splitChars (fun c => c.isWhitespace || c == '-' || c == '_' || c == '/') s.data).filter
    fun w => decide (0 < w.length)).map fun w => String.mk w

/-- Skill proficiency levels (`user.types.ts`). -/
inductive SkillLevel
  | beginner
  | intermediate
  | advanced
  | expert
deriving DecidableEq, Repr

/-- The `Skill` interface from `user.types.ts`. -/
structure Skill where
  id : String := ""
  name : String
  description : Option String := none
  level : SkillLevel
  category : Option String := none
deriving DecidableEq, Repr

/-- Function `MatchingEngine.getLevelWeight`: the fixed level-weight table. -/
def getLevelWeight : SkillLevel → ℚ
  | SkillLevel.beginner => 0.5
  | SkillLevel.intermediate => 0.75
  | SkillLevel.advanced => 0.9
  | SkillLevel.expert => 1.0

/-- Function `SemanticService.fallbackSimilarity` (score component only): exact
match, containment, then word-overlap over deduplicated union. -/
def fallbackSimilarity (skillA skillB : Skill) : ℚ :=
  let nameA := jsToLower (jsTrim skillA.name)
  let nameB := jsToLower (jsTrim skillB.name)
  if nameA = nameB then 1
  else if strIncludes nameA nameB || strIncludes nameB nameA then
    -- shorter.length / longer.length
    let containmentScore : ℚ :=
      (min (jsLength nameA) (jsLength nameB) : ℚ) / (max (jsLength nameA) (jsLength nameB) : ℚ)
    if containmentScore > 0.8 then 0.9 else 0.7
  else
    let wordsA := splitWords nameA
    let wordsB := splitWords nameB
    let commonWords := wordsA.filter fun w => wordsB.contains w
    if commonWords.length > 0 then
      -- `new Set([...wordsA, ...wordsB]).size`
      let unionSize := ((wordsA ++ wordsB).eraseDups).length
      let similarity : ℚ := (commonWords.length : ℚ) / (unionSize : ℚ)
      if similarity > 0.5 then similarity * 0.8 else similarity * 0.5
    else 0

/-- The external embedding provider: `none` models the reachable
"pipeline unavailable" state (initialization failed), `some f` a working
provider whose cosine similarity for a pair of skills is `f a b`. -/
def EmbedOracle : Type := Option (Skill → Skill → ℚ)

/-- Function `SemanticService.calculateSkillSimilarity` (score component only):
exact-match stage, near-exact containment stage, then the embedding
stage (cosine clamped to [0,1]) with `fallbackSimilarity` on provider
failure. -/
def calculateSkillSimilarity (orc : EmbedOracle) (skillA skillB : Skill) : ℚ :=
  let nameA := jsToLower (jsTrim skillA.name)
  let nameB := jsToLower (jsTrim skillB.name)
  if nameA = nameB then 1
  else
    let containScore : ℚ :=
      (min (jsLength nameA) (jsLength nameB) : ℚ) / (max (jsLength nameA) (jsLength nameB) : ℚ)
    if (strIncludes nameA nameB || strIncludes nameB nameA) ∧ containScore > 0.8 then
      min 0.95 containScore
    else
      match orc with
      | some embedSim => clamp01 (embedSim skillA skillB)
      | none => fallbackSimilarity skillA skillB

/-- Loop body of `SemanticService.findBestMatch`: scan candidates keeping
the strictly-best score seen so far (first-seen wins ties). -/
def bestOf (orc : EmbedOracle) (target : Skill) :
    List Skill → Option (Skill × ℚ) → ℚ → Option (Skill × ℚ)
  | [], best, _ => best
  | c :: cs, best, bestScore =>
    let r := calculateSkillSimilarity orc target c
    if bestScore < r then bestOf orc target cs (some (c, r)) r
    else bestOf orc target cs best bestScore

/-- Function `SemanticService.findBestMatch`: best-scoring candidate skill, or
`none` on an empty candidate list (initial best score is `-1`). -/
def findBestMatch (orc : EmbedOracle) (target : Skill)
    (candidateSkills : List Skill) : Option (Skill × ℚ) :=
  if candidateSkills.isEmpty then none
  else bestOf orc target candidateSkills none (-1)

/-- The `Location` interface from `user.types.ts` — every field optional. -/
structure Location where
  city : Option String := none
  country : Option String := none
  latitude : Option ℚ := none
  longitude : Option ℚ := none
  timezone : Option String := none
deriving DecidableEq, Repr

/-- The `UserProfile` interface from `user.types.ts` (`createdAt`/`updatedAt` `Date`
fields dropped — never read by the engine). -/
structure UserProfile where
  id : String
  username : String := ""
  email : String := ""
  languages : List String := []
  location : Option Location := none
  offers : List Skill := []
  wants : List Skill := []
  trustScore : ℚ := 0.5
deriving DecidableEq, Repr

/-- The `LocationSimilarityResult` interface from `matching.types.ts`. -/
structure LocationSimilarityResult where
  score : ℚ
  distance : Option ℚ
  sameCity : Bool
  sameCountry : Bool
deriving DecidableEq, Repr

/-- Function `LocationService.calculateLocationSimilarity`.  The haversine
distance (floating-point trigonometry on `Math.sin`/`cos`/`atan2`) is
abstracted as the parameter `haversine`; JS truthiness makes a
coordinate equal to `0` count as absent.  Note the `?.` optional
chaining in the same-city check: two absent cities (and countries)
compare equal. -/
def calculateLocationSimilarity (haversine : ℚ → ℚ → ℚ → ℚ → ℚ)
    (userA userB : UserProfile) : LocationSimilarityResult :=
  match userA.location, userB.location with
  | some locA, some locB =>
    let cityA := locA.city.map fun s => jsTrim (jsToLower s)
    let cityB := locB.city.map fun s => jsTrim (jsToLower s)
    let countryA := locA.country.map fun s => jsTrim (jsToLower s)
    let countryB := locB.country.map fun s => jsTrim (jsToLower s)
    let sameCity := cityA == cityB && countryA == countryB
    let sameCountry := (countryA == countryB) && !sameCity
    let distance : Option ℚ :=
      match locA.latitude, locA.longitude, locB.latitude, locB.longitude with
      | some la1, some lo1, some la2, some lo2 =>
        if la1 ≠ 0 ∧ lo1 ≠ 0 ∧ la2 ≠ 0 ∧ lo2 ≠ 0 then some (haversine la1 lo1 la2 lo2)
        else none
      | _, _, _, _ => none
    let score : ℚ :=
      if sameCity then 1.0
      else if sameCountry then 0.7
      else
        match distance with
        | some d =>
          if d < 100 then 0.9
          else if d < 500 then 0.7
          else if d < 2000 then 0.5
          else if d < 5000 then 0.3
          else 0.1
        | none => 0.2
    { score := clamp01 score, distance := distance,
      sameCity := sameCity, sameCountry := sameCountry }
  | _, _ =>
    -- `if (!userA.location || !userB.location)`: neutral result
    { score := 0.5, distance := none, sameCity := false, sameCountry := false }

/-- The `MatchingWeights` interface from `user.types.ts`. -/
structure MatchingWeights where
  w1 : ℚ
  w2 : ℚ
  w3 : ℚ
  w4 : ℚ
  w5 : ℚ
deriving DecidableEq, Repr

/-- The `DEFAULT_WEIGHTS` constant from `user.types.ts`. -/
def DEFAULT_WEIGHTS : MatchingWeights :=
  { w1 := 0.30, w2 := 0.30, w3 := 0.15, w4 := 0.15, w5 := 0.10 }

/-- The `MatchScore` interface from `user.types.ts`. -/
structure MatchScore where
  totalScore : ℚ
  semanticScoreAtoB : ℚ
  semanticScoreBtoA : ℚ
  locationScore : ℚ
  languageScore : ℚ
  trustScore : ℚ
  breakdown : MatchingWeights
deriving DecidableEq, Repr

/-- The `MatchResult` interface from `user.types.ts` (`matchedAt : Date` dropped). -/
structure MatchResult where
  userA : UserProfile
  userB : UserProfile
  matchScore : MatchScore
deriving DecidableEq, Repr

/-- The `MatchingConfig` interface from `matching.types.ts`: optional threshold and
result cap alongside the weight vector. -/
structure MatchingConfig where
  weights : MatchingWeights
  minMatchScore : Option ℚ := none
  maxResults : Option ℕ := none

/-- Sum `scores.reduce((sum, score) => sum + score, 0)`. -/
def listSum (l : List ℚ) : ℚ := l.foldl (· + ·) 0

/-- Maximum `Math.max(...scores)` for the non-empty score list. -/
def listMax : List ℚ → ℚ
  | [] => 0
  | x :: xs => xs.foldl max x

/-- Per-offer level-weighted best-match scores (`scores` array of
`calculateSemanticScoreAtoB`): for each of A's offers, the best match
among B's wants, scaled by the offer's level weight. -/
def weightedScores (orc : EmbedOracle) (userA userB : UserProfile) : List ℚ :=
  userA.offers.filterMap fun offer =>
    (findBestMatch orc offer userB.wants).map fun bm =>
      bm.2 * getLevelWeight offer.level

/-- Per-offer raw best-match similarities before level weighting (the
`matchDetails[].score` values of `calculateSemanticScoreAtoB`). -/
def rawSimilarities (orc : EmbedOracle) (userA userB : UserProfile) : List ℚ :=
  userA.offers.filterMap fun offer =>
    (findBestMatch orc offer userB.wants).map fun bm => bm.2

/-- Function `MatchingEngine.calculateSemanticScoreAtoB`: directional aggregate of
A's offers against B's wants; `hasExactMatch` is tested on the
level-WEIGHTED scores. -/
def calculateSemanticScoreAtoB (orc : EmbedOracle) (userA userB : UserProfile) : ℚ :=
  if userA.offers.length = 0 ∨ userB.wants.length = 0 then 0
  else
    let scores := weightedScores orc userA userB
    if scores.length = 0 then 0
    else
      let average := listSum scores / (scores.length : ℚ)
      let mx := listMax scores
      let hasExactMatch := scores.any fun s => decide ((0.99 : ℚ) ≤ s)
      if hasExactMatch then mx * 0.8 + average * 0.2
      else average * 0.7 + mx * 0.3

/-- Function `MatchingEngine.calculateSemanticScoreBtoA`: the reverse direction,
delegating with the users swapped. -/
def calculateSemanticScoreBtoA (orc : EmbedOracle) (userA userB : UserProfile) : ℚ :=
  calculateSemanticScoreAtoB orc userB userA

/-- The boost-floor ladder of `calculateMatchScore` (lines 218-252 of
the engine): the `hasPerfectSemanticMatch` / `hasStrongSemanticMatch` /
`hasAnyPerfectMatch` / `hasAnyStrongMatch` / `hasAnyMatch` if/else-if
chain applied to the weighted sum. -/
def boostTotal (sAB sBA total : ℚ) : ℚ :=
  if 0.95 ≤ sAB ∧ 0.95 ≤ sBA then max total 0.8
  else if 0.8 ≤ sAB ∧ 0.8 ≤ sBA then max total 0.7
  else if 0.95 ≤ sAB ∨ 0.95 ≤ sBA then max total 0.6
  else if 0.8 ≤ sAB ∨ 0.8 ≤ sBA then max total 0.5
  else if 0 < sAB ∨ 0 < sBA then max total 0.3
  else total

/-- Function `MatchingEngine.calculateMatchScore`.  The language and trust
services are absent from the scoring code available here (only called);
their outcome (`languageResult?.score ?? 0.5`, `trustResult?.score ??
0.5`, or the neutral `0.5` kept on an exception) is abstracted as the
`languageScore`/`trustScore` arguments.  `(weights.wN || 0)` is the
identity on rationals, hence the weights are used directly. -/
def calculateMatchScore (orc : EmbedOracle) (haversine : ℚ → ℚ → ℚ → ℚ → ℚ)
    (userA userB : UserProfile) (weights : MatchingWeights)
    (languageScore trustScore : ℚ) : MatchScore :=
  let semanticScoreAtoB := calculateSemanticScoreAtoB orc userA userB
  let semanticScoreBtoA := calculateSemanticScoreBtoA orc userA userB
  let locationScore := (calculateLocationSimilarity haversine userA userB).score
  let totalScore :=
    weights.w1 * semanticScoreAtoB +
    weights.w2 * semanticScoreBtoA +
    weights.w3 * locationScore +
    weights.w4 * languageScore +
    weights.w5 * trustScore
  let boosted := boostTotal semanticScoreAtoB semanticScoreBtoA totalScore
  { totalScore := clamp01 boosted,
    semanticScoreAtoB := clamp01 semanticScoreAtoB,
    semanticScoreBtoA := clamp01 semanticScoreBtoA,
    locationScore := clamp01 locationScore,
    languageScore := clamp01 languageScore,
    trustScore := clamp01 trustScore,
    breakdown := weights }

/-- Candidate loop of `MatchingEngine.findMatches`, in input order:
skip a candidate whose id equals the subject's, score the rest, keep
those reaching `minScore`.  `scoreOf c = none` models the per-candidate
`try/catch`: an exception thrown while scoring `c` makes the loop log
and `continue`, so `c` contributes nothing. -/
def matchList (scoreOf : UserProfile → Option MatchScore) (user : UserProfile)
    (minScore : ℚ) : List UserProfile → List MatchResult
  | [] => []
  | c :: rest =>
    if user.id = c.id then matchList scoreOf user minScore rest
    else
      match scoreOf c with
      | none => matchList scoreOf user minScore rest
      | some ms =>
        if minScore ≤ ms.totalScore then
          { userA := user, userB := c, matchScore := ms } :: matchList scoreOf user minScore rest
        else matchList scoreOf user minScore rest

/-- One step of the stable descending sort: place `r` before the first
element whose total does not exceed `r`'s.  This is the unique result of
a stable sort under the comparator `(a, b) => b.total - a.total` used by
`matches.sort`. -/
def insertByScoreDesc (r : MatchResult) : List MatchResult → List MatchResult
  | [] => [r]
  | x :: xs =>
    if x.matchScore.totalScore ≤ r.matchScore.totalScore then r :: x :: xs
    else x :: insertByScoreDesc r xs

/-- Sorting `matches.sort((a, b) => b.matchScore.totalScore -
a.matchScore.totalScore)`: stable sort, descending by total score. -/
def sortByScoreDesc : List MatchResult → List MatchResult
  | [] => []
  | x :: xs => insertByScoreDesc x (sortByScoreDesc xs)

/-- Function `MatchingEngine.findMatches` stated over an arbitrary per-candidate
scorer (possibly failing, cf. `matchList`): defaults
`minMatchScore ?? 0` and `maxResults ?? 50`, loop, stable descending
sort, then `slice(0, maxResults)`. -/
def findMatchesWith (scoreOf : UserProfile → Option MatchScore)
    (user : UserProfile) (candidates : List UserProfile)
    (config : MatchingConfig) : List MatchResult :=
  let minScore := config.minMatchScore.getD 0
  let maxResults := config.maxResults.getD 50
  (sortByScoreDesc (matchList scoreOf user minScore candidates)).take maxResults

/-- The scorer `findMatches` actually uses: `calculateMatchScore`, which
catches every internal error and always returns a `MatchScore`. -/
def engineScorer (orc : EmbedOracle) (haversine : ℚ → ℚ → ℚ → ℚ → ℚ)
    (langScore trustScore : UserProfile → UserProfile → ℚ)
    (user : UserProfile) (weights : MatchingWeights) :
    UserProfile → Option MatchScore :=
  fun c => some (calculateMatchScore orc haversine user c weights
    (langScore user c) (trustScore user c))

/-- Function `MatchingEngine.findMatches` with its real scorer. -/
def findMatches (orc : EmbedOracle) (haversine : ℚ → ℚ → ℚ → ℚ → ℚ)
    (langScore trustScore : UserProfile → UserProfile → ℚ)
    (user : UserProfile) (candidates : List UserProfile)
    (config : MatchingConfig) : List MatchResult :=
  findMatchesWith (engineScorer orc haversine langScore trustScore user config.weights)
    user candidates config

/-- Maximum of `MatchingEngine.getLevelWeight` over a list of offers
(with `0` for an empty list), used to bound the directional aggregate. -/
def maxLevelWeight (offers : List Skill) : ℚ :=
  offers.foldr (fun o m => max (getLevelWeight o.level) m) 0

/-- Modelled from the spec: the boost-floor policy as an explicit
priority-ordered rule list over the two directional aggregates, each
rule a guard plus a floor. -/
def boostRules : List ((ℚ → ℚ → Bool) × ℚ) :=
  [ (fun sAB sBA => decide (0.95 ≤ sAB) && decide (0.95 ≤ sBA), 0.8),
    (fun sAB sBA => decide (0.8 ≤ sAB) && decide (0.8 ≤ sBA), 0.7),
    (fun sAB sBA => decide (0.95 ≤ sAB) || decide (0.95 ≤ sBA), 0.6),
    (fun sAB sBA => decide (0.8 ≤ sAB) || decide (0.8 ≤ sBA), 0.5),
    (fun sAB sBA => decide (0 < sAB) || decide (0 < sBA), 0.3) ]

/-- Modelled from the spec: evaluate a rule list top-to-bottom,
first-match-wins; the matching rule floors the total at its floor
value, no rule matching leaves the total unchanged. -/
def applyBoostRules : List ((ℚ → ℚ → Bool) × ℚ) → ℚ → ℚ → ℚ → ℚ
  | [], _, _, total => total
  | rule :: rs, sAB, sBA, total =>
    if rule.1 sAB sBA then max total rule.2 else applyBoostRules rs sAB sBA total

/-- Modelled from the spec: the boost-floor policy as stated in §4.4. -/
def boostTotalSpec (sAB sBA total : ℚ) : ℚ := applyBoostRules boostRules sAB sBA total

/-- Interval membership `0 ≤ x ∧ x ≤ 1`, the contract for every score. -/
def inUnit (x : ℚ) : Prop := 0 ≤ x ∧ x ≤ 1

-- Sample data used by the concrete witnesses.

/-- Zero-distance stand-in for the abstracted haversine function. -/
def zeroHaversine : ℚ → ℚ → ℚ → ℚ → ℚ := fun _ _ _ _ => 0

/-- Sample subject: offers expert "p", wants "j", no location. -/
def sampleUserA : UserProfile :=
  { id := "alice",
    offers := [{ name := "p", level := SkillLevel.expert }],
    wants := [{ name := "j", level := SkillLevel.beginner }] }

/-- Sample candidate: offers expert "j", wants "p", no location. -/
def sampleUserB : UserProfile :=
  { id := "bob",
    offers := [{ name := "j", level := SkillLevel.expert }],
    wants := [{ name := "p", level := SkillLevel.beginner }] }

/-- Profile with a location object whose city and country are absent. -/
def bareLocUserA : UserProfile := { id := "la", location := some {} }

/-- Second profile with a city-less, country-less location object. -/
def bareLocUserB : UserProfile := { id := "lb", location := some {} }

-- Basic bounds for the clamp.

theorem clamp01_nonneg (x : ℚ) : 0 ≤ clamp01 x := le_max_left 0 _

theorem clamp01_le_one (x : ℚ) : clamp01 x ≤ 1 :=
  max_le (by norm_num) (min_le_left 1 x)

theorem clamp01_in_unit (x : ℚ) : inUnit (clamp01 x) :=
  ⟨clamp01_nonneg x, clamp01_le_one x⟩

theorem le_clamp01_of_le {b x : ℚ} (hb1 : b ≤ 1) (hbx : b ≤ x) : b ≤ clamp01 x :=
  le_trans (le_min hb1 hbx) (le_max_right 0 _)

/-- C2: for every pair of profiles, every weight vector, any embedding
oracle / haversine function and any language and trust signal values,
the `MatchScore` returned by `calculateMatchScore` has all five
component scores and the total score in the closed interval [0,1]. -/
theorem calculateMatchScore_in_unit (orc : EmbedOracle)
    (haversine : ℚ → ℚ → ℚ → ℚ → ℚ) (userA userB : UserProfile)
    (weights : MatchingWeights) (languageScore trustScore : ℚ) :
    inUnit (calculateMatchScore orc haversine userA userB weights languageScore trustScore).totalScore
    ∧ inUnit (calculateMatchScore orc haversine userA userB weights languageScore trustScore).semanticScoreAtoB
    ∧ inUnit (calculateMatchScore orc haversine userA userB weights languageScore trustScore).semanticScoreBtoA
    ∧ inUnit (calculateMatchScore orc haversine userA userB weights languageScore trustScore).locationScore
    ∧ inUnit (calculateMatchScore orc haversine userA userB weights languageScore trustScore).languageScore
    ∧ inUnit (calculateMatchScore orc haversine userA userB weights languageScore trustScore).trustScore :=
  ⟨clamp01_in_unit _, clamp01_in_unit _, clamp01_in_unit _, clamp01_in_unit _,
    clamp01_in_unit _, clamp01_in_unit _⟩

/-- C1: the boost-floor ladder of `calculateMatchScore` coincides with
the spec's priority-ordered first-match-wins rule list (applied to the
weighted sum, before the final clamp), and consequently, for every
profile pair and non-negative weight vector, if both directional
aggregates are at least 0.95 the returned total score is at least
0.8. -/
theorem boost_floor_policy :
    (∀ sAB sBA total : ℚ, boostTotal sAB sBA total = boostTotalSpec sAB sBA total)
    ∧ ∀ (orc : EmbedOracle) (haversine : ℚ → ℚ → ℚ → ℚ → ℚ)
        (userA userB : UserProfile) (weights : MatchingWeights)
        (languageScore trustScore : ℚ),
        0 ≤ weights.w1 → 0 ≤ weights.w2 → 0 ≤ weights.w3 →
        0 ≤ weights.w4 → 0 ≤ weights.w5 →
        0.95 ≤ calculateSemanticScoreAtoB orc userA userB →
        0.95 ≤ calculateSemanticScoreBtoA orc userA userB →
        0.8 ≤ (calculateMatchScore orc haversine userA userB weights
          languageScore trustScore).totalScore := by
  constructor
  · intro sAB sBA total
    simp only [boostTotal, boostTotalSpec, boostRules, applyBoostRules,
      Bool.and_eq_true, Bool.or_eq_true, decide_eq_true_eq]
  · intro orc haversine userA userB weights languageScore trustScore
      _ _ _ _ _ hAB hBA
    show 0.8 ≤ clamp01 (boostTotal _ _ _)
    rw [boostTotal, if_pos ⟨hAB, hBA⟩]
    exact le_clamp01_of_le (by norm_num) (le_max_right _ _)

/-- Witness for C1 at a concrete input: a fully reciprocal expert pair
with the all-zero (hence non-negative) weight vector still totals at
least 0.8. -/
theorem boost_floor_policy_witness :
    0.8 ≤ (calculateMatchScore none zeroHaversine sampleUserA sampleUserB
      { w1 := 0, w2 := 0, w3 := 0, w4 := 0, w5 := 0 } 0.5 0.5).totalScore :=
  boost_floor_policy.2 none zeroHaversine sampleUserA sampleUserB
    { w1 := 0, w2 := 0, w3 := 0, w4 := 0, w5 := 0 } 0.5 0.5
    (by norm_num) (by norm_num) (by norm_num) (by norm_num) (by norm_num)
    (by decide) (by decide)

/-- C7: the geo scorer is a total function whose score always lies in
[0,1], and whenever at least one profile has no location the score is
exactly the neutral 0.5. -/
theorem location_missing_neutral (haversine : ℚ → ℚ → ℚ → ℚ → ℚ)
    (userA userB : UserProfile) :
    inUnit (calculateLocationSimilarity haversine userA userB).score
    ∧ ((userA.location = none ∨ userB.location = none) →
        (calculateLocationSimilarity haversine userA userB).score = 0.5) := by
  cases hA : userA.location with
  | none =>
    simp only [calculateLocationSimilarity, hA]
    exact ⟨by constructor <;> norm_num [inUnit], fun _ => by trivial⟩
  | some locA =>
    cases hB : userB.location with
    | none =>
      simp only [calculateLocationSimilarity, hA, hB]
      exact ⟨by constructor <;> norm_num [inUnit], fun _ => by trivial⟩
    | some locB =>
      simp only [calculateLocationSimilarity, hA, hB]
      refine ⟨clamp01_in_unit _, ?_⟩
      rintro (h | h) <;> simp [hA, hB] at h

/-- Witness for C7 at a concrete input: both sample users carry no
location, and the geo score evaluates to exactly 0.5. -/
theorem location_missing_neutral_witness :
    (calculateLocationSimilarity zeroHaversine sampleUserA sampleUserB).score = 0.5 :=
  (location_missing_neutral zeroHaversine sampleUserA sampleUserB).2 (Or.inl rfl)

/-- C10: when both profiles carry a location object but neither
declares a city nor a country, the optional-chaining comparisons see
two equal absent cities and two equal absent countries, the pair is
classified as same-city, and the geo score is 1.0 rather than the
neutral 0.5 — whatever the coordinate fields hold. -/
theorem location_absent_fields_same_city (haversine : ℚ → ℚ → ℚ → ℚ → ℚ)
    (userA userB : UserProfile) (la1 lo1 la2 lo2 : Option ℚ)
    (tz1 tz2 : Option String)
    (hA : userA.location = some (Location.mk none none la1 lo1 tz1))
    (hB : userB.location = some (Location.mk none none la2 lo2 tz2)) :
    (calculateLocationSimilarity haversine userA userB).score = 1
    ∧ (calculateLocationSimilarity haversine userA userB).sameCity = true := by
  simp only [calculateLocationSimilarity, hA, hB, Option.map_none]
  norm_num [clamp01]

/-- Witness for C10 at a concrete input: two profiles whose location
objects have every field absent score 1.0 and are marked same-city. -/
theorem location_absent_fields_same_city_witness :
    (calculateLocationSimilarity zeroHaversine bareLocUserA bareLocUserB).score = 1
    ∧ (calculateLocationSimilarity zeroHaversine bareLocUserA bareLocUserB).sameCity = true :=
  location_absent_fields_same_city zeroHaversine bareLocUserA bareLocUserB
    none none none none none none rfl rfl

/-- Remove every whitespace character; used to state "differs from s
only in letter case and whitespace". -/
def stripAllWhitespace (s : String) : String :=
  ⟨s.data.filter fun c => !c.isWhitespace⟩

/-- Two strings differ only in letter case and whitespace. -/
def eqUpToCaseWhitespace (s t : String) : Prop :=
  stripAllWhitespace (jsToLower s) = stripAllWhitespace (jsToLower t)

/-- C4 counterexample: "JavaScript" and "Java Script" differ only in
letter case and whitespace, yet in the (reachable) state where the
embedding provider is unavailable the skill similarity evaluates to 0,
not 1.0: the code only trims EDGE whitespace before the exact-match
comparison, interior whitespace defeats it. -/
theorem skill_similarity_case_ws_counterexample :
    eqUpToCaseWhitespace "JavaScript" "Java Script"
    ∧ calculateSkillSimilarity none
        { name := "JavaScript", level := SkillLevel.expert }
        { name := "Java Script", level := SkillLevel.expert } = 0 := by
  constructor
  · unfold eqUpToCaseWhitespace
    decide
  · decide

/-- C4 amended: for every oracle state, two skills whose names are
equal after trimming leading/trailing whitespace and lowercasing (i.e.
that differ only in letter case and EDGE whitespace) get similarity
exactly 1.0. -/
theorem skill_similarity_trim_case_insensitive (orc : EmbedOracle)
    (skillA skillB : Skill)
    (h : jsToLower (jsTrim skillA.name) = jsToLower (jsTrim skillB.name)) :
    calculateSkillSimilarity orc skillA skillB = 1 := by
  simp only [calculateSkillSimilarity]
  rw [if_pos h]

/-- Witness for the amended C4 at a concrete input: "p" versus
"  P " (case and edge whitespace only) scores exactly 1.0. -/
theorem skill_similarity_trim_case_insensitive_witness :
    calculateSkillSimilarity none
      { name := "p", level := SkillLevel.expert }
      { name := "  P ", level := SkillLevel.beginner } = 1 :=
  skill_similarity_trim_case_insensitive none _ _ (by decide)

-- The directional aggregate: C3.

/-- Profiles exhibiting the raw-versus-weighted discrepancy of the
exact-match exception: a beginner-level exact match plus an unrelated
beginner offer. -/
def exactBeginnerA : UserProfile :=
  { id := "ca",
    offers := [{ name := "alpha", level := SkillLevel.beginner },
               { name := "zzz", level := SkillLevel.beginner }] }

/-- Counterpart of `exactBeginnerA`, wanting exactly "alpha". -/
def exactWantB : UserProfile :=
  { id := "cb", wants := [{ name := "alpha", level := SkillLevel.beginner }] }

/-- C3 counterexample: a per-skill RAW best-match similarity of 1.0
(≥ 0.99) occurs, but the offer is beginner-level so every level-weighted
score stays below 0.99 and the aggregate is NOT the claimed
0.8·max + 0.2·mean of the weighted scores (the code tests the
exact-match exception on the weighted scores, not the raw ones). -/
theorem directional_aggregate_raw_exception_counterexample :
    (∃ r ∈ rawSimilarities none exactBeginnerA exactWantB, 0.99 ≤ r)
    ∧ calculateSemanticScoreAtoB none exactBeginnerA exactWantB
        ≠ listMax (weightedScores none exactBeginnerA exactWantB) * 0.8
          + listSum (weightedScores none exactBeginnerA exactWantB)
            / ((weightedScores none exactBeginnerA exactWantB).length : ℚ) * 0.2 := by
  constructor
  · decide
  · decide

/-- If the other profile wants nothing, no best match ever exists and
the per-offer score list is empty. -/
theorem weightedScores_nil_of_wants_nil (orc : EmbedOracle)
    (userA userB : UserProfile) (h : userB.wants = []) :
    weightedScores orc userA userB = [] := by
  simp [weightedScores, findBestMatch, h]

/-- C3 amended: whenever the per-offer score list is non-empty, the
directional aggregate equals 0.8·max + 0.2·mean of the level-WEIGHTED
per-skill best-match scores if some WEIGHTED score is ≥ 0.99, and
0.7·mean + 0.3·max of them otherwise.  (The claim's trigger — a RAW
similarity ≥ 0.99 before level weighting — is refuted by the
counterexample.) -/
theorem directional_aggregate_mean_max (orc : EmbedOracle)
    (userA userB : UserProfile)
    (h : weightedScores orc userA userB ≠ []) :
    ((∃ s ∈ weightedScores orc userA userB, 0.99 ≤ s) →
      calculateSemanticScoreAtoB orc userA userB
        = listMax (weightedScores orc userA userB) * 0.8
          + listSum (weightedScores orc userA userB)
            / ((weightedScores orc userA userB).length : ℚ) * 0.2)
    ∧ ((∀ s ∈ weightedScores orc userA userB, s < 0.99) →
      calculateSemanticScoreAtoB orc userA userB
        = listSum (weightedScores orc userA userB)
            / ((weightedScores orc userA userB).length : ℚ) * 0.7
          + listMax (weightedScores orc userA userB) * 0.3) := by
  have hoffers : ¬ userA.offers.length = 0 := by
    intro h0
    apply h
    have : userA.offers = [] := List.length_eq_zero.mp h0
    simp [weightedScores, this]
  have hwants : ¬ userB.wants.length = 0 := by
    intro h0
    exact h (weightedScores_nil_of_wants_nil orc userA userB (List.length_eq_zero.mp h0))
  have hlen : ¬ (weightedScores orc userA userB).length = 0 := by
    simpa [List.length_eq_zero] using h
  constructor
  · intro hex
    have hany : (weightedScores orc userA userB).any (fun s => decide ((0.99 : ℚ) ≤ s)) = true := by
      rw [List.any_eq_true]
      obtain ⟨s, hs, hle⟩ := hex
      exact ⟨s, hs, by simpa using hle⟩
    simp only [calculateSemanticScoreAtoB]
    rw [if_neg (by push_neg; exact ⟨hoffers, hwants⟩), if_neg hlen, if_pos hany]
  · intro hall
    have hany : (weightedScores orc userA userB).any (fun s => decide ((0.99 : ℚ) ≤ s)) = false := by
      rw [List.any_eq_false]
      intro s hs
      simpa using not_le.mpr (hall s hs)
    simp only [calculateSemanticScoreAtoB]
    rw [if_neg (by push_neg; exact ⟨hoffers, hwants⟩), if_neg hlen, hany]
    simp

/-- Witness for the amended C3 at a concrete input: the sample expert
pair has a weighted score of 1.0 ≥ 0.99, and the aggregate evaluates to
the 0.8·max + 0.2·mean combination. -/
theorem directional_aggregate_mean_max_witness :
    calculateSemanticScoreAtoB none sampleUserA sampleUserB
      = listMax (weightedScores none sampleUserA sampleUserB) * 0.8
        + listSum (weightedScores none sampleUserA sampleUserB)
          / ((weightedScores none sampleUserA sampleUserB).length : ℚ) * 0.2 :=
  (directional_aggregate_mean_max none sampleUserA sampleUserB (by decide)).1 (by decide)

-- Level-weight bounds: C9.

theorem getLevelWeight_nonneg (l : SkillLevel) : 0 ≤ getLevelWeight l := by
  cases l <;> norm_num [getLevelWeight]

theorem maxLevelWeight_nonneg (offers : List Skill) : 0 ≤ maxLevelWeight offers := by
  induction offers with
  | nil => exact le_refl 0
  | cons o os ih => exact le_trans ih (le_max_right _ _)

theorem le_maxLevelWeight (offers : List Skill) (o : Skill) (ho : o ∈ offers) :
    getLevelWeight o.level ≤ maxLevelWeight offers := by
  induction offers with
  | nil => cases ho
  | cons x xs ih =>
    rcases List.mem_cons.mp ho with h | h
    · subst h; exact le_max_left _ _
    · exact le_trans (ih h) (le_max_right _ _)

theorem maxLevelWeight_le (offers : List Skill) (b : ℚ) (hb : 0 ≤ b)
    (h : ∀ o ∈ offers, getLevelWeight o.level ≤ b) : maxLevelWeight offers ≤ b := by
  induction offers with
  | nil => exact hb
  | cons x xs ih =>
    exact max_le (h x (List.mem_cons_self x xs))
      (ih fun o ho => h o (List.mem_cons_of_mem x ho))

/-- Every level-weighted score decomposes as a raw best-match similarity
times the corresponding offer's level weight. -/
theorem mem_weightedScores (orc : EmbedOracle) (userA userB : UserProfile)
    (s : ℚ) (hs : s ∈ weightedScores orc userA userB) :
    ∃ o ∈ userA.offers, ∃ r, r ∈ rawSimilarities orc userA userB
      ∧ s = r * getLevelWeight o.level := by
  rw [weightedScores, List.mem_filterMap] at hs
  obtain ⟨o, ho, heq⟩ := hs
  rw [Option.map_eq_some'] at heq
  obtain ⟨bm, hbm, hval⟩ := heq
  refine ⟨o, ho, bm.2, ?_, hval.symm⟩
  rw [rawSimilarities, List.mem_filterMap]
  exact ⟨o, ho, by rw [hbm]; rfl⟩

theorem foldl_add_eq (l : List ℚ) : ∀ a : ℚ, l.foldl (· + ·) a = a + l.foldl (· + ·) 0 := by
  induction l with
  | nil => intro a; simp
  | cons x xs ih =>
    intro a
    simp only [List.foldl]
    rw [ih (a + x), ih (0 + x)]
    ring

theorem listSum_cons (x : ℚ) (xs : List ℚ) : listSum (x :: xs) = x + listSum xs := by
  simp only [listSum, List.foldl]
  rw [foldl_add_eq xs (0 + x)]
  ring

theorem listSum_le (l : List ℚ) (W : ℚ) (h : ∀ s ∈ l, s ≤ W) :
    listSum l ≤ (l.length : ℚ) * W := by
  induction l with
  | nil => simp [listSum]
  | cons x xs ih =>
    rw [listSum_cons]
    have hx := h x (List.mem_cons_self x xs)
    have hxs := ih fun s hs => h s (List.mem_cons_of_mem x hs)
    have : ((x :: xs).length : ℚ) = (xs.length : ℚ) + 1 := by push_cast [List.length_cons]; ring
    rw [this]
    linarith

theorem foldl_max_le (xs : List ℚ) (W : ℚ) : ∀ a : ℚ, a ≤ W → (∀ s ∈ xs, s ≤ W) →
    xs.foldl max a ≤ W := by
  induction xs with
  | nil => intro a ha _; exact ha
  | cons y ys ih =>
    intro a ha h
    simp only [List.foldl]
    exact ih (max a y) (max_le ha (h y (List.mem_cons_self y ys)))
      fun s hs => h s (List.mem_cons_of_mem y hs)

theorem listMax_le (l : List ℚ) (W : ℚ) (hne : l ≠ []) (h : ∀ s ∈ l, s ≤ W) :
    listMax l ≤ W := by
  cases l with
  | nil => exact absurd rfl hne
  | cons x xs =>
    exact foldl_max_le xs W x (h x (List.mem_cons_self x xs))
      fun s hs => h s (List.mem_cons_of_mem x hs)

/-- C9 amended: provided every raw best-match similarity is at most 1
(true whenever the embedding stage is used, but violable in the lexical
fallback, see the counterexample), the directional aggregate never
exceeds the maximum level weight among the offering profile's skills;
in particular, with no expert-level offer it stays strictly below
1.0. -/
theorem directional_aggregate_level_bound (orc : EmbedOracle)
    (userA userB : UserProfile)
    (hraw : ∀ r ∈ rawSimilarities orc userA userB, r ≤ 1) :
    calculateSemanticScoreAtoB orc userA userB ≤ maxLevelWeight userA.offers
    ∧ ((∀ o ∈ userA.offers, o.level ≠ SkillLevel.expert) →
        calculateSemanticScoreAtoB orc userA userB < 1) := by
  have hW0 : 0 ≤ maxLevelWeight userA.offers := maxLevelWeight_nonneg _
  have hsc : ∀ s ∈ weightedScores orc userA userB, s ≤ maxLevelWeight userA.offers := by
    intro s hs
    obtain ⟨o, ho, r, hr, hseq⟩ := mem_weightedScores orc userA userB s hs
    calc s = r * getLevelWeight o.level := hseq
    _ ≤ getLevelWeight o.level :=
      mul_le_of_le_one_left (getLevelWeight_nonneg o.level) (hraw r hr)
    _ ≤ maxLevelWeight userA.offers := le_maxLevelWeight userA.offers o ho
  have hmain : calculateSemanticScoreAtoB orc userA userB ≤ maxLevelWeight userA.offers := by
    simp only [calculateSemanticScoreAtoB]
    split_ifs with h1 h2 h3
    · exact hW0
    · exact hW0
    all_goals {
      have hne : weightedScores orc userA userB ≠ [] := by
        simpa [List.length_eq_zero] using h2
      have hlen : (0 : ℚ) < ((weightedScores orc userA userB).length : ℚ) := by
        exact_mod_cast Nat.pos_of_ne_zero (by simpa [List.length_eq_zero] using h2)
      have havg : listSum (weightedScores orc userA userB)
          / ((weightedScores orc userA userB).length : ℚ) ≤ maxLevelWeight userA.offers := by
        rw [div_le_iff₀ hlen]
        calc listSum (weightedScores orc userA userB)
            ≤ ((weightedScores orc userA userB).length : ℚ) * maxLevelWeight userA.offers :=
              listSum_le _ _ hsc
        _ = maxLevelWeight userA.offers * ((weightedScores orc userA userB).length : ℚ) := by ring
      have hmx : listMax (weightedScores orc userA userB) ≤ maxLevelWeight userA.offers :=
        listMax_le _ _ hne hsc
      linarith
    }
  refine ⟨hmain, fun hnoexp => ?_⟩
  have hW9 : maxLevelWeight userA.offers ≤ 0.9 := by
    apply maxLevelWeight_le _ _ (by norm_num)
    intro o ho
    have hne := hnoexp o ho
    cases hl : o.level with
    | beginner => norm_num [getLevelWeight]
    | intermediate => norm_num [getLevelWeight]
    | advanced => norm_num [getLevelWeight]
    | expert => exact absurd hl hne
  calc calculateSemanticScoreAtoB orc userA userB
      ≤ maxLevelWeight userA.offers := hmain
  _ ≤ 0.9 := hW9
  _ < 1 := by norm_num

/-- Profile with a single advanced (non-expert) offer "p". -/
def sampleAdvA : UserProfile :=
  { id := "adv", offers := [{ name := "p", level := SkillLevel.advanced }] }

/-- Witness for the amended C9 at a concrete input: an advanced-level
exact match yields an aggregate of 0.9, within the level-weight bound
and strictly below 1. -/
theorem directional_aggregate_level_bound_witness :
    calculateSemanticScoreAtoB none sampleAdvA sampleUserB ≤ maxLevelWeight sampleAdvA.offers
    ∧ calculateSemanticScoreAtoB none sampleAdvA sampleUserB < 1 :=
  ⟨(directional_aggregate_level_bound none sampleAdvA sampleUserB (by decide)).1,
   (directional_aggregate_level_bound none sampleAdvA sampleUserB (by decide)).2 (by decide)⟩

/-- Profiles exercising the duplicate-token word-overlap path: offered
"a a a" (tokens a,a,a) against wanted "a b" gives a "Jaccard" of 3/2
and a raw similarity of 1.2 > 1. -/
def dupTokenUserA : UserProfile :=
  { id := "da", offers := [{ name := "a a a", level := SkillLevel.advanced }] }

/-- Counterpart of `dupTokenUserA`, wanting "a b". -/
def dupTokenUserB : UserProfile :=
  { id := "db", wants := [{ name := "a b", level := SkillLevel.beginner }] }

/-- C9 counterexample: with the embedding provider unavailable, the
word-overlap fallback counts duplicate tokens (3 common tokens over a
deduplicated union of 2), producing a raw similarity of 1.5·0.8 = 1.2;
the advanced-level weighting gives an aggregate of 1.08, exceeding the
0.9 maximum level weight and reaching 1.0 although no offer is
expert-level. -/
theorem directional_aggregate_level_bound_counterexample :
    (∀ o ∈ dupTokenUserA.offers, o.level ≠ SkillLevel.expert)
    ∧ ¬ calculateSemanticScoreAtoB none dupTokenUserA dupTokenUserB
        ≤ maxLevelWeight dupTokenUserA.offers
    ∧ ¬ calculateSemanticScoreAtoB none dupTokenUserA dupTokenUserB < 1 := by
  refine ⟨?_, ?_, ?_⟩
  · decide
  · decide
  · decide

-- The candidate pipeline: C5, C6, C8.

theorem mem_matchList (scoreOf : UserProfile → Option MatchScore)
    (user : UserProfile) (minScore : ℚ) :
    ∀ (cs : List UserProfile), ∀ r ∈ matchList scoreOf user minScore cs,
      r.userB ∈ cs ∧ user.id ≠ r.userB.id ∧ (scoreOf r.userB).isSome = true := by
  intro cs
  induction cs with
  | nil => intro r hr; cases hr
  | cons c rest ih =>
    intro r hr
    rw [matchList] at hr
    by_cases hself : user.id = c.id
    · rw [if_pos hself] at hr
      obtain ⟨h1, h2, h3⟩ := ih r hr
      exact ⟨List.mem_cons_of_mem c h1, h2, h3⟩
    · rw [if_neg hself] at hr
      cases hsc : scoreOf c with
      | none =>
        simp only [hsc] at hr
        obtain ⟨h1, h2, h3⟩ := ih r hr
        exact ⟨List.mem_cons_of_mem c h1, h2, h3⟩
      | some ms =>
        simp only [hsc] at hr
        by_cases hmin : minScore ≤ ms.totalScore
        · rw [if_pos hmin] at hr
          rcases List.mem_cons.mp hr with h | h
          · subst h
            exact ⟨List.mem_cons_self c rest, hself, by rw [hsc]; rfl⟩
          · obtain ⟨h1, h2, h3⟩ := ih r h
            exact ⟨List.mem_cons_of_mem c h1, h2, h3⟩
        · rw [if_neg hmin] at hr
          obtain ⟨h1, h2, h3⟩ := ih r hr
          exact ⟨List.mem_cons_of_mem c h1, h2, h3⟩

theorem mem_insertByScoreDesc (r a : MatchResult) (l : List MatchResult) :
    a ∈ insertByScoreDesc r l ↔ a = r ∨ a ∈ l := by
  induction l with
  | nil => simp [insertByScoreDesc]
  | cons x xs ih =>
    rw [insertByScoreDesc]
    by_cases h : x.matchScore.totalScore ≤ r.matchScore.totalScore
    · rw [if_pos h]
      simp [List.mem_cons]
    · rw [if_neg h]
      simp only [List.mem_cons, ih]
      tauto

theorem mem_sortByScoreDesc (a : MatchResult) (l : List MatchResult) :
    a ∈ sortByScoreDesc l ↔ a ∈ l := by
  induction l with
  | nil => simp [sortByScoreDesc]
  | cons x xs ih =>
    rw [sortByScoreDesc, mem_insertByScoreDesc]
    simp only [List.mem_cons, ih]

theorem pairwise_insertByScoreDesc (r : MatchResult) (l : List MatchResult)
    (h : l.Pairwise fun a b => b.matchScore.totalScore ≤ a.matchScore.totalScore) :
    (insertByScoreDesc r l).Pairwise
      fun a b => b.matchScore.totalScore ≤ a.matchScore.totalScore := by
  induction l with
  | nil => simp [insertByScoreDesc]
  | cons x xs ih =>
    rw [insertByScoreDesc]
    rw [List.pairwise_cons] at h
    obtain ⟨hx, hxs⟩ := h
    by_cases hcmp : x.matchScore.totalScore ≤ r.matchScore.totalScore
    · rw [if_pos hcmp]
      rw [List.pairwise_cons]
      refine ⟨?_, List.pairwise_cons.mpr ⟨hx, hxs⟩⟩
      intro b hb
      rcases List.mem_cons.mp hb with h | h
      · subst h; exact hcmp
      · exact le_trans (hx b h) hcmp
    · rw [if_neg hcmp]
      rw [List.pairwise_cons]
      refine ⟨?_, ih hxs⟩
      intro b hb
      rcases (mem_insertByScoreDesc r b xs).mp hb with h | h
      · subst h; exact le_of_lt (lt_of_not_le hcmp)
      · exact hx b h

theorem pairwise_sortByScoreDesc (l : List MatchResult) :
    (sortByScoreDesc l).Pairwise
      fun a b => b.matchScore.totalScore ≤ a.matchScore.totalScore := by
  induction l with
  | nil => simp [sortByScoreDesc]
  | cons x xs ih =>
    rw [sortByScoreDesc]
    exact pairwise_insertByScoreDesc x (sortByScoreDesc xs) ih

theorem filter_insertByScoreDesc (q : ℚ) (r : MatchResult) (l : List MatchResult) :
    (insertByScoreDesc r l).filter (fun a => decide (a.matchScore.totalScore = q))
      = if r.matchScore.totalScore = q then
          r :: l.filter (fun a => decide (a.matchScore.totalScore = q))
        else l.filter (fun a => decide (a.matchScore.totalScore = q)) := by
  induction l with
  | nil =>
    rw [insertByScoreDesc]
    by_cases h : r.matchScore.totalScore = q
    · rw [if_pos h]; simp [List.filter, h]
    · rw [if_neg h]; simp [List.filter, h]
  | cons x xs ih =>
    rw [insertByScoreDesc]
    by_cases hcmp : x.matchScore.totalScore ≤ r.matchScore.totalScore
    · rw [if_pos hcmp]
      by_cases h : r.matchScore.totalScore = q
      · rw [if_pos h]
        simp [List.filter_cons, h]
      · rw [if_neg h]
        simp [List.filter_cons, h]
    · rw [if_neg hcmp]
      rw [List.filter_cons, List.filter_cons]
      by_cases hx : x.matchScore.totalScore = q
      · have hrq : ¬ r.matchScore.totalScore = q := fun hh =>
          hcmp (le_of_eq (hx.trans hh.symm))
        simp [hx, hrq, ih]
      · simp [hx, ih]

theorem filter_sortByScoreDesc (q : ℚ) (l : List MatchResult) :
    (sortByScoreDesc l).filter (fun a => decide (a.matchScore.totalScore = q))
      = l.filter (fun a => decide (a.matchScore.totalScore = q)) := by
  induction l with
  | nil => simp [sortByScoreDesc]
  | cons x xs ih =>
    rw [sortByScoreDesc, filter_insertByScoreDesc, List.filter_cons]
    by_cases hx : x.matchScore.totalScore = q
    · rw [if_pos hx, ih]
      simp [hx]
    · rw [if_neg hx, ih]
      simp [hx]

/-- Removing the candidates whose scoring fails changes nothing: the
loop already skips exactly those. -/
theorem matchList_filter_failures (scoreOf : UserProfile → Option MatchScore)
    (user : UserProfile) (minScore : ℚ) :
    ∀ cs : List UserProfile,
      matchList scoreOf user minScore (cs.filter fun c => (scoreOf c).isSome)
        = matchList scoreOf user minScore cs := by
  intro cs
  induction cs with
  | nil => rfl
  | cons c rest ih =>
    rw [List.filter_cons]
    cases hsc : scoreOf c with
    | none =>
      simp only [hsc, Option.isSome_none]
      rw [if_neg (by simp)]
      rw [ih, matchList]
      by_cases hself : user.id = c.id
      · rw [if_pos hself]
      · rw [if_neg hself]
        simp only [hsc]
    | some ms =>
      simp only [hsc, Option.isSome_some]
      rw [if_pos trivial]
      rw [matchList, matchList]
      by_cases hself : user.id = c.id
      · rw [if_pos hself, if_pos hself, ih]
      · rw [if_neg hself, if_neg hself]
        simp only [hsc, ih]

/-- C8: a candidate whose score computation fails (meaning the
per-candidate `try/catch` fires) is dropped while the remaining
candidates are still processed — running on the failure-free sublist
gives the identical result list — and every returned result's candidate
scored successfully; the total function always returns a (possibly
empty) list. -/
theorem findMatchesWith_drops_failures (scoreOf : UserProfile → Option MatchScore)
    (user : UserProfile) (candidates : List UserProfile) (config : MatchingConfig) :
    findMatchesWith scoreOf user candidates config
      = findMatchesWith scoreOf user (candidates.filter fun c => (scoreOf c).isSome) config
    ∧ (findMatchesWith scoreOf user candidates config).all
        (fun r => (scoreOf r.userB).isSome) = true := by
  constructor
  · simp only [findMatchesWith]
    rw [matchList_filter_failures]
  · rw [List.all_eq_true]
    intro r hr
    simp only [findMatchesWith] at hr
    have hr1 := List.mem_of_mem_take hr
    have hr2 := (mem_sortByScoreDesc _ _).mp hr1
    exact (mem_matchList scoreOf user _ candidates r hr2).2.2

/-- C5: `findMatches` never returns a result whose candidate id equals
the subject's id, even when the subject appears in the candidate
list. -/
theorem findMatches_no_self (orc : EmbedOracle) (haversine : ℚ → ℚ → ℚ → ℚ → ℚ)
    (langScore trustScore : UserProfile → UserProfile → ℚ)
    (user : UserProfile) (candidates : List UserProfile) (config : MatchingConfig) :
    ∀ r ∈ findMatches orc haversine langScore trustScore user candidates config,
      r.userB.id ≠ user.id := by
  intro r hr
  simp only [findMatches, findMatchesWith] at hr
  have hr1 := List.mem_of_mem_take hr
  have hr2 := (mem_sortByScoreDesc _ _).mp hr1
  exact fun h => (mem_matchList _ user _ candidates r hr2).2.1 h.symm

/-- Neutral language/trust signal used by the concrete witnesses. -/
def neutralSignal : UserProfile → UserProfile → ℚ := fun _ _ => 0.5

/-- Default configuration: default weights, no threshold, no cap. -/
def sampleConfig : MatchingConfig := { weights := DEFAULT_WEIGHTS }

/-- The result `findMatches` produces for the sample pair. -/
def sampleResult : MatchResult :=
  { userA := sampleUserA, userB := sampleUserB,
    matchScore := calculateMatchScore none zeroHaversine sampleUserA sampleUserB
      DEFAULT_WEIGHTS 0.5 0.5 }

/-- Witness for C5 at a concrete input: with the subject itself in the
candidate list, the single returned result is the other candidate. -/
theorem findMatches_no_self_witness : sampleResult.userB.id ≠ sampleUserA.id :=
  findMatches_no_self none zeroHaversine neutralSignal neutralSignal sampleUserA
    [sampleUserA, sampleUserB] sampleConfig sampleResult (by decide)

/-- C6: the list returned by `findMatches` has length at most
`config.maxResults` (default 50), is sorted non-increasingly by total
score, and preserves the candidate-loop input order among ties (its
restriction to any fixed total score is an in-order sublist of the
pre-sort match list's). -/
theorem findMatches_sorted_bounded (orc : EmbedOracle)
    (haversine : ℚ → ℚ → ℚ → ℚ → ℚ)
    (langScore trustScore : UserProfile → UserProfile → ℚ)
    (user : UserProfile) (candidates : List UserProfile) (config : MatchingConfig) :
    (findMatches orc haversine langScore trustScore user candidates config).length
      ≤ config.maxResults.getD 50
    ∧ (findMatches orc haversine langScore trustScore user candidates config).Pairwise
        (fun a b => b.matchScore.totalScore ≤ a.matchScore.totalScore)
    ∧ ∀ q : ℚ, List.Sublist
        ((findMatches orc haversine langScore trustScore user candidates config).filter
          fun r => decide (r.matchScore.totalScore = q))
        ((matchList (engineScorer orc haversine langScore trustScore user config.weights)
            user (config.minMatchScore.getD 0) candidates).filter
          fun r => decide (r.matchScore.totalScore = q)) := by
  refine ⟨?_, ?_, ?_⟩
  · simp only [findMatches, findMatchesWith]
    rw [List.length_take]
    exact min_le_left _ _
  · simp only [findMatches, findMatchesWith]
    exact (pairwise_sortByScoreDesc _).sublist (List.take_sublist _ _)
  · intro q
    simp only [findMatches, findMatchesWith]
    have h1 := (List.take_sublist (config.maxResults.getD 50)
      (sortByScoreDesc (matchList (engineScorer orc haversine langScore trustScore
        user config.weights) user (config.minMatchScore.getD 0) candidates))).filter
      fun r => decide (r.matchScore.totalScore = q)
    rwa [filter_sortByScoreDesc] at h1

end SwapSphere
